import Mathlib

/-!
Verification development for the reflection-coach repository.

The graph store (`graph_manager.py`, backed by a networkx `DiGraph`) and the
tracking store (`tracking_manager.py` / `tracking_schema.py`) are embedded
shallowly: Python dicts become association lists, the in-memory `DiGraph`
becomes a pair of association lists (nodes keyed by id, edges keyed by the
ordered pair of endpoint ids — a `DiGraph` holds at most one edge per ordered
pair), and every operation is translated line by line from the source.
-/

set_option autoImplicit false

namespace ReflectionCoach

/-! ### Python-style attribute values and dictionaries -/

/-- A JSON-ish attribute value, as stored in a node or edge attribute dict. -/
inductive Val where
  | vstr (s : String)
  | vnum (n : Int)
  | vbool (b : Bool)
  | vnull
  deriving DecidableEq

/-- A Python dict with string keys, as an association list in insertion
order.  All constructors below preserve key uniqueness. -/
abbrev Dict := List (String × Val)

/-- Python `d[k]` / `d.get(k)`: first (unique) binding of `k`. -/
def dget (d : Dict) (k : String) : Option Val :=
  match d with
  | [] => none
  | (k2, v) :: rest => if k2 = k then some v else dget rest k

/-- Python `k in d`. -/
def hasKey (d : Dict) (k : String) : Bool := (dget d k).isSome

/-- Python `d[k] = v`: overwrite in place, or append a fresh binding. -/
def dinsert (d : Dict) (k : String) (v : Val) : Dict :=
  if hasKey d k then d.map (fun p => if p.1 = k then (p.1, v) else p)
  else d ++ [(k, v)]

/-- Python `d1.update(d2)`. -/
def dupdate (d1 d2 : Dict) : Dict :=
  d2.foldl (fun acc p => dinsert acc p.1 p.2) d1

/-- Python `str(v)` on an attribute value. -/
def pyStr (v : Val) : String :=
  match v with
  | .vstr s => s
  | .vnum n => toString n
  | .vbool b => if b then "True" else "False"
  | .vnull => "None"

/-- Python truthiness of an attribute value (`"" `, `0`, `False`, `None`
are falsy). -/
def truthy (v : Val) : Bool :=
  match v with
  | .vstr s => !(s == "")
  | .vnum n => !(n == 0)
  | .vbool b => b
  | .vnull => false

/-! ### Case-insensitive substring search (Python `a in b` on lowered str) -/

/-- Python `str.lower()`, character by character (ASCII range). -/
def lowerChars (cs : List Char) : List Char := cs.map Char.toLower

/-- Character-list prefix test. -/
def isPrefCh : List Char → List Char → Bool
  | [], _ => true
  | _ :: _, [] => false
  | a :: as, b :: bs => a == b && isPrefCh as bs

/-- Python `pat in hay` on strings: substring containment. -/
def containsSub (pat : List Char) : List Char → Bool
  | [] => pat.isEmpty
  | c :: t => isPrefCh pat (c :: t) || containsSub pat t

/-! ### The graph store (`GraphManager` over `networkx.DiGraph`)

A `DiGraph` keeps one attribute dict per node id and at most one edge
(with one attribute dict) per ordered pair of node ids; inserting an
existing node or edge updates (`dict.update`) the stored attributes. -/

structure Graph where
  nodes : List (String × Dict)
  edges : List (String × String × Dict)
  deriving DecidableEq

/-- The state `GraphManager` starts from when no file exists (and after a
failed load): an empty `DiGraph`. -/
def emptyGraph : Graph := ⟨[], []⟩

/-- The node entry for an id, if present. -/
def findNodeEntry (g : Graph) (id : String) : Option (String × Dict) :=
  g.nodes.find? (fun p => p.1 == id)

/-- networkx `G.has_node(id)`. -/
def has_node (g : Graph) (id : String) : Bool := (findNodeEntry g id).isSome

/-- networkx `G.nodes[id]` (total here; networkx guarantees presence
wherever the source reads it). -/
def nodeD (g : Graph) (id : String) : Dict :=
  ((findNodeEntry g id).map Prod.snd).getD []

/-- `GraphManager.get_node`: the attribute dict, or `None` when absent. -/
def get_node (g : Graph) (id : String) : Option Dict :=
  if has_node g id then some (nodeD g id) else none

/-- networkx `G.add_node(id, **attrs)` as called by `GraphManager.add_node`
with `node.id` and `node.to_dict()`: a fresh id appends a node; an existing
id has its attribute dict updated (`dict.update`), not replaced. -/
def add_node (g : Graph) (id : String) (attrs : Dict) : Graph :=
  match findNodeEntry g id with
  | some _ =>
    { g with nodes := g.nodes.map (fun p => if p.1 == id then (p.1, dupdate p.2 attrs) else p) }
  | none => { g with nodes := g.nodes ++ [(id, attrs)] }

/-- networkx auto-adds a missing endpoint (with an empty attribute dict)
when an edge is inserted. -/
def addNodeIfAbsent (g : Graph) (id : String) : Graph :=
  if has_node g id then g else { g with nodes := g.nodes ++ [(id, [])] }

/-- networkx `G.get_edge_data(u, v)`. -/
def edgeData (g : Graph) (u v : String) : Option Dict :=
  (g.edges.find? (fun e => e.1 == u && e.2.1 == v)).map (fun e => e.2.2)

/-- networkx `G.add_edge(u, v, **attrs)` as called by
`GraphManager.add_edge`: endpoints are auto-added if missing; a `DiGraph`
holds at most one edge per ordered pair, so a repeated pair updates the
existing edge's attribute dict instead of adding a second edge. -/
def add_edge (g : Graph) (u v : String) (attrs : Dict) : Graph :=
  let g1 := addNodeIfAbsent (addNodeIfAbsent g u) v
  match edgeData g1 u v with
  | some _ =>
    { g1 with edges := g1.edges.map (fun e =>
        if e.1 == u && e.2.1 == v then (e.1, e.2.1, dupdate e.2.2 attrs) else e) }
  | none => { g1 with edges := g1.edges ++ [(u, v, attrs)] }

/-- networkx `G.number_of_nodes()`. -/
def number_of_nodes (g : Graph) : Nat := g.nodes.length

/-- networkx `G.number_of_edges()`. -/
def number_of_edges (g : Graph) : Nat := g.edges.length

/-- The first present field among `text`, `description`, `label`, `name`
that `GraphManager.find_nodes_by_text` reads into `content` (defaulting to
the empty string when none is present). -/
def textContent (d : Dict) : Val :=
  if hasKey d "text" then (dget d "text").getD .vnull
  else if hasKey d "description" then (dget d "description").getD .vnull
  else if hasKey d "label" then (dget d "label").getD .vnull
  else if hasKey d "name" then (dget d "name").getD .vnull
  else .vstr ""

/-- `GraphManager.find_nodes_by_text`: case-insensitive substring match of
the query against `str(content).lower()` for each node, collecting the
matching nodes' attribute dicts in iteration order. -/
def find_nodes_by_text (g : Graph) (text : String) : List Dict :=
  let searchTerm := lowerChars text.toList
  (g.nodes.filter (fun p =>
    containsSub searchTerm (lowerChars (pyStr (textContent p.2)).toList))).map Prod.snd

/-! ### Neighbors and the ego walk -/

/-- One element of the list `GraphManager.get_neighbors` returns. -/
structure NeighborItem where
  node : Dict
  edge : Dict
  direction : String
  deriving DecidableEq

/-- networkx `G.successors(id)`: targets of edges out of `id`. -/
def successors (g : Graph) (id : String) : List String :=
  (g.edges.filter (fun e => e.1 == id)).map (fun e => e.2.1)

/-- networkx `G.predecessors(id)`: sources of edges into `id`. -/
def predecessors (g : Graph) (id : String) : List String :=
  (g.edges.filter (fun e => e.2.1 == id)).map (fun e => e.1)

/-- `GraphManager.get_neighbors`: outgoing then incoming `(node, edge,
direction)` records; empty when the node is absent. -/
def get_neighbors (g : Graph) (node_id : String) (direction : String) : List NeighborItem :=
  if !(has_node g node_id) then []
  else
    (if direction == "outgoing" || direction == "both" then
      (successors g node_id).map (fun y =>
        ⟨nodeD g y, (edgeData g node_id y).getD [], "outgoing"⟩)
     else []) ++
    (if direction == "incoming" || direction == "both" then
      (predecessors g node_id).map (fun y =>
        ⟨nodeD g y, (edgeData g y node_id).getD [], "incoming"⟩)
     else [])

/-- The id the ego walk reads from a neighbor's attribute dict
(`neighbor_node['id']`; present on every node the manager created from
`Node.to_dict()`, an invariant the theorems assume as `IdConsistent`). -/
def dictId (d : Dict) : String :=
  match dget d "id" with
  | some (.vstr s) => s
  | _ => ""

/-- One entry of the `subgraph_edges` list built by `ego_walk`. -/
structure SubEdge where
  source : String
  target : String
  typ : Val
  deriving DecidableEq

/-- Python `set.add` on a set modelled as a duplicate-free list. -/
def setAdd (s : List String) (x : String) : List String :=
  if x ∈ s then s else s ++ [x]

/-- Python `set(xs)`. -/
def setOf (xs : List String) : List String := xs.foldl setAdd []

/-- The body of the `for item in neighbors` loop inside `ego_walk`: record
the traversed edge (orienting it by traversal direction), add the neighbor
to the subgraph node set, and enqueue it at depth+1 if unseen. -/
def processNeighbors (cid : String) (cdepth : Nat) :
    List NeighborItem → List String → List String → List (String × Nat) → List SubEdge →
    List String × List String × List (String × Nat) × List SubEdge
  | [], visited, subNodes, queue, subEdges => (visited, subNodes, queue, subEdges)
  | item :: rest, visited, subNodes, queue, subEdges =>
    let nid := dictId item.node
    let subEdges2 := subEdges ++
      [⟨if item.direction == "outgoing" then cid else nid,
        if item.direction == "outgoing" then nid else cid,
        (dget item.edge "type").getD .vnull⟩]
    let subNodes2 := setAdd subNodes nid
    if nid ∈ visited then
      processNeighbors cid cdepth rest visited subNodes2 queue subEdges2
    else
      processNeighbors cid cdepth rest (visited ++ [nid]) subNodes2
        (queue ++ [(nid, cdepth + 1)]) subEdges2

/-- The `while queue` loop of `ego_walk`.  The fuel argument is an upper
bound on the number of iterations: every enqueue pairs with a fresh
addition to `visited`, whose members are ids read off node dicts reachable
through at most `2 * |edges|` adjacency entries, so the initial queue plus
that bound dominates the pop count and the zero-fuel branch is never taken
from `egoRun`. -/
def egoLoop (g : Graph) (depth : Nat) :
    Nat → List (String × Nat) → List String → List String → List SubEdge →
    List String × List SubEdge
  | 0, _, _, subNodes, subEdges => (subNodes, subEdges)
  | _ + 1, [], _, subNodes, subEdges => (subNodes, subEdges)
  | fuel + 1, (cid, cdepth) :: rest, visited, subNodes, subEdges =>
    if depth ≤ cdepth then egoLoop g depth fuel rest visited subNodes subEdges
    else
      let r := processNeighbors cid cdepth (get_neighbors g cid "both")
        visited subNodes rest subEdges
      egoLoop g depth fuel r.2.2.1 r.1 r.2.1 r.2.2.2

/-- The BFS phase of `ego_walk`: visited and subgraph sets seeded with the
anchors, queue seeded at depth 0. -/
def egoRun (g : Graph) (anchors : List String) (depth : Nat) :
    List String × List SubEdge :=
  egoLoop g depth (anchors.length + 2 * g.edges.length + 1)
    (anchors.map (fun nid => (nid, 0))) (setOf anchors) (setOf anchors) []

/-- The node set `ego_walk` hands to `_format_subgraph_as_text`. -/
def egoWalkNodes (g : Graph) (anchors : List String) (depth : Nat) : List String :=
  (egoRun g anchors depth).1

/-- `get_label` inside `_format_subgraph_as_text`: the first truthy value
of the chained Python `or` over `text`, `description`, `label`, `name`. -/
def firstTruthy : List (Option Val) → Option Val
  | [] => none
  | none :: rest => firstTruthy rest
  | some v :: rest => if truthy v then some v else firstTruthy rest

def get_label (g : Graph) (nid : String) : String :=
  match firstTruthy [dget (nodeD g nid) "text", dget (nodeD g nid) "description",
      dget (nodeD g nid) "label", dget (nodeD g nid) "name"] with
  | some v => pyStr v
  | none => "Unknown"

/-- `GraphManager._format_subgraph_as_text`. -/
def format_subgraph_as_text (g : Graph) (node_ids : List String)
    (edges : List SubEdge) : String :=
  let header := "Graph Context (" ++ toString node_ids.length ++ " nodes):"
  let nodeLines := node_ids.map (fun nid =>
    "- [" ++ pyStr ((dget (nodeD g nid) "type").getD Val.vnull) ++ "] " ++ get_label g nid)
  let relLines := "Relationships:" :: edges.map (fun e =>
    "- \x27" ++ get_label g e.source ++ "\x27 --" ++ pyStr e.typ ++ "--> \x27" ++
      get_label g e.target ++ "\x27")
  String.intercalate "\n" (header :: nodeLines ++ relLines)

/-- `GraphManager.ego_walk`. -/
def ego_walk (g : Graph) (anchor_node_ids : List String) (depth : Nat) : String :=
  if anchor_node_ids.isEmpty then "No relevant context found in graph."
  else
    let r := egoRun g anchor_node_ids depth
    format_subgraph_as_text g r.1 r.2

/-! ### Persistence round trip (`save_graph` / `load_graph`)

`save_graph` writes `nx.node_link_data(graph)` as JSON and `load_graph`
rebuilds with `nx.node_link_graph`; the file I/O is the identity on the
payload, so the round trip is `node_link_graph` applied to the node list
and link list of the in-memory graph. -/

/-- `nx.node_link_data`: the node list and link list of the graph. -/
def node_link_data (g : Graph) : List (String × Dict) × List (String × String × Dict) :=
  (g.nodes, g.edges)

/-- `nx.node_link_graph`: rebuild a `DiGraph` by inserting every listed
node with its attributes, then every listed edge. -/
def node_link_graph (nodes : List (String × Dict))
    (edges : List (String × String × Dict)) : Graph :=
  edges.foldl (fun g e => add_edge g e.1 e.2.1 e.2.2)
    (nodes.foldl (fun g p => add_node g p.1 p.2) emptyGraph)

/-- `save_graph` followed by `load_graph` on the produced file. -/
def roundTrip (g : Graph) : Graph :=
  node_link_graph (node_link_data g).1 (node_link_data g).2

/-! ### Well-formedness of reachable graph states -/

/-- Structural invariants every graph reachable through `add_node` /
`add_edge` (and hence every saved graph) satisfies: unique node ids, at
most one edge per ordered pair, and edge endpoints present as nodes. -/
structure GraphWF (g : Graph) : Prop where
  nodesNodup : (g.nodes.map Prod.fst).Nodup
  edgesNodup : (g.edges.map (fun e => (e.1, e.2.1))).Nodup
  srcIn : ∀ e ∈ g.edges, has_node g e.1 = true
  tgtIn : ∀ e ∈ g.edges, has_node g e.2.1 = true

/-- Every node's attribute dict carries its own id under the `"id"` key —
true of every node the manager inserts via `add_node(node.id,
**node.to_dict())`, and relied on by `ego_walk` when it reads
`neighbor_node['id']`. -/
def IdConsistent (g : Graph) : Prop :=
  ∀ p ∈ g.nodes, dget p.2 "id" = some (Val.vstr p.1)

instance (g : Graph) : Decidable (IdConsistent g) := by
  unfold IdConsistent; infer_instance

/-! ### The tracking store (`tracking_schema.py` / `tracking_manager.py`)

The three JSONL-backed collections are Python dicts keyed by record id and
rewritten wholesale on update; they are embedded as association lists.
`date.today()` is threaded as an explicit parameter.  The optional
`embedding: Optional[List[float]]` field on every record is inert in all
operations and is omitted (floating point is outside the embedding). -/

structure ProgressEntry where
  date : String
  outcome : String
  notes : String
  marginal_gain_score : Int
  deriving DecidableEq

structure Experiment where
  id : String
  habit_id : Option String
  title : String
  description : String
  success_criteria : String
  status : String
  created_at : String
  last_checked : Option String
  related_graph_nodes : List String
  progress_log : List ProgressEntry
  deriving DecidableEq

structure Habit where
  id : String
  goal_id : Option String
  title : String
  description : String
  components : List String
  experiments : List String
  status : String
  created_at : String
  last_updated : String
  deriving DecidableEq

structure TargetGoal where
  id : String
  title : String
  description : String
  target_date : Option String
  habits : List String
  status : String
  created_at : String
  last_updated : String
  deriving DecidableEq

/-- `Experiment.cumulative_progress`. -/
def cumulative_progress (e : Experiment) : Int :=
  (e.progress_log.map (fun p => p.marginal_gain_score)).sum

/-- `Experiment.successful_days`. -/
def successful_days (e : Experiment) : Nat :=
  (e.progress_log.filter (fun p => p.outcome == "success" || p.outcome == "partial")).length

/-- The in-memory caches of `TrackingManager`. -/
structure TrackingState where
  goals : List (String × TargetGoal)
  habits : List (String × Habit)
  experiments : List (String × Experiment)
  deriving DecidableEq

/-- Python `d.get(k)` on an id-keyed collection. -/
def mlookup {β : Type} (l : List (String × β)) (k : String) : Option β :=
  (l.find? (fun p => p.1 == k)).map Prod.snd

/-- Python `d[k] = v`. -/
def mset {β : Type} (l : List (String × β)) (k : String) (v : β) : List (String × β) :=
  if (mlookup l k).isSome then l.map (fun p => if p.1 == k then (p.1, v) else p)
  else l ++ [(k, v)]

/-- Python `del d[k]`. -/
def mdel {β : Type} (l : List (String × β)) (k : String) : List (String × β) :=
  l.filter (fun p => !(p.1 == k))

/-- Python `d.values()`. -/
def mvalues {β : Type} (l : List (String × β)) : List β := l.map Prod.snd

/-- `TrackingManager.get_habits_for_goal`. -/
def get_habits_for_goal (s : TrackingState) (goal_id : String) : List Habit :=
  (mvalues s.habits).filter (fun h => h.goal_id == some goal_id)

/-- `TrackingManager.delete_habit`: drop the habit id from its parent
goal's habit list (when both still exist and the list holds it), then
delete the habit record; experiments are untouched. -/
def delete_habit (s : TrackingState) (habit_id : String) : TrackingState × Bool :=
  match mlookup s.habits habit_id with
  | none => (s, false)
  | some habit =>
    let s1 :=
      match habit.goal_id with
      | some gid =>
        match mlookup s.goals gid with
        | some goal =>
          if habit_id ∈ goal.habits then
            { s with goals := mset s.goals gid { goal with habits := goal.habits.erase habit_id } }
          else s
        | none => s
      | none => s
    ({ s1 with habits := mdel s1.habits habit_id }, true)

/-- `TrackingManager.delete_goal`: delete every habit whose `goal_id`
matches, then delete the goal itself. -/
def delete_goal (s : TrackingState) (goal_id : String) : TrackingState × Bool :=
  if (mlookup s.goals goal_id).isNone then (s, false)
  else
    let habits_to_delete := (get_habits_for_goal s goal_id).map (fun h => h.id)
    let s1 := habits_to_delete.foldl (fun st hid => (delete_habit st hid).1) s
    ({ s1 with goals := mdel s1.goals goal_id }, true)

/-- `TrackingManager.get_active_experiments`: status `active` or `testing`. -/
def get_active_experiments (s : TrackingState) : List Experiment :=
  (mvalues s.experiments).filter (fun e => e.status == "active" || e.status == "testing")

/-! Dates: `datetime.date` with `date.fromisoformat` (strict `YYYY-MM-DD`)
and the calendar-order comparison used by `today > last_checked`. -/

structure PyDate where
  year : Nat
  month : Nat
  day : Nat
  deriving DecidableEq

/-- Python `date` comparison `a < b` (lexicographic on year, month, day). -/
def dateLt (a b : PyDate) : Bool :=
  a.year < b.year ||
    (a.year == b.year && (a.month < b.month || (a.month == b.month && a.day < b.day)))

def isLeap (y : Nat) : Bool := (y % 4 == 0 && !(y % 100 == 0)) || y % 400 == 0

def daysInMonth (y m : Nat) : Nat :=
  if m == 2 then (if isLeap y then 29 else 28)
  else if m == 4 || m == 6 || m == 9 || m == 11 then 30
  else 31

/-- `date.fromisoformat`: parse `YYYY-MM-DD` into a valid calendar date,
failing (Python raises `ValueError`, caught by the caller) on any other
shape or an out-of-range component. -/
def date_fromisoformat (s : String) : Option PyDate :=
  match s.toList with
  | [y1, y2, y3, y4, h1, m1, m2, h2, d1, d2] =>
    if y1.isDigit && y2.isDigit && y3.isDigit && y4.isDigit && h1 == '-' &&
        m1.isDigit && m2.isDigit && h2 == '-' && d1.isDigit && d2.isDigit then
      let y := (y1.toNat - 48) * 1000 + (y2.toNat - 48) * 100 + (y3.toNat - 48) * 10 + (y4.toNat - 48)
      let m := (m1.toNat - 48) * 10 + (m2.toNat - 48)
      let d := (d1.toNat - 48) * 10 + (d2.toNat - 48)
      if 1 ≤ y && 1 ≤ m && m ≤ 12 && 1 ≤ d && d ≤ daysInMonth y m then
        some ⟨y, m, d⟩
      else none
    else none
  | _ => none

/-- `date.fromisoformat(exp.last_checked)` including the `TypeError` on a
missing (`None`) value, which the caller also catches. -/
def parse_last_checked (lc : Option String) : Option PyDate :=
  match lc with
  | none => none
  | some s => date_fromisoformat s

/-- `TrackingManager.get_experiments_needing_followup`: active experiments
whose `last_checked` parses to a date strictly before today, or fails to
parse at all. -/
def get_experiments_needing_followup (s : TrackingState) (today : PyDate) : List Experiment :=
  (get_active_experiments s).filter (fun e =>
    match parse_last_checked e.last_checked with
    | some lc => dateLt lc today
    | none => true)

/-- `TrackingManager.log_progress`: clamp the score, append a dated entry,
refresh `last_checked`, and auto-complete an active experiment once it has
seven successful days. -/
def log_progress (s : TrackingState) (exp_id : String) (outcome : String)
    (notes : String) (marginal_gain_score : Int) (today : String) : TrackingState :=
  match mlookup s.experiments exp_id with
  | none => s
  | some e =>
    let score := max (-3) (min 3 marginal_gain_score)
    let entry : ProgressEntry := ⟨today, outcome, notes, score⟩
    let e1 := { e with progress_log := e.progress_log ++ [entry], last_checked := some today }
    let e2 := if 7 ≤ successful_days e1 && e1.status == "active" then
        { e1 with status := "completed" }
      else e1
    { s with experiments := mset s.experiments exp_id e2 }

/-! ### Helper lemmas -/

theorem find?_mapUpdate {α : Type} (p : α → Bool) (f : α → α)
    (hp : ∀ a, p a = true → p (f a) = true) :
    ∀ (l : List α) (a : α), l.find? p = some a →
      (l.map (fun x => if p x then f x else x)).find? p = some (f a)
  | [], a, h => by simp [List.find?] at h
  | x :: t, a, h => by
    cases hx : p x with
    | true =>
      rw [List.find?_cons_of_pos _ hx] at h
      injection h with h
      subst h
      simp only [List.map_cons, hx, if_true]
      exact List.find?_cons_of_pos _ (hp x hx)
    | false =>
      rw [List.find?_cons_of_neg _ (by simp [hx])] at h
      simp only [List.map_cons, hx, if_false]
      rw [List.find?_cons_of_neg _ (by simp [hx])]
      exact find?_mapUpdate p f hp t a h

theorem find?_append_none {α : Type} (p : α → Bool) :
    ∀ (l1 l2 : List α), l1.find? p = none → (l1 ++ l2).find? p = l2.find? p
  | [], _, _ => rfl
  | x :: t, l2, h => by
    cases hx : p x with
    | true =>
      rw [List.find?_cons_of_pos _ hx] at h
      exact absurd h (by simp)
    | false =>
      rw [List.find?_cons_of_neg _ (by simp [hx])] at h
      rw [List.cons_append, List.find?_cons_of_neg _ (by simp [hx])]
      exact find?_append_none p t l2 h

theorem edges_addNodeIfAbsent (g : Graph) (i : String) :
    (addNodeIfAbsent g i).edges = g.edges := by
  unfold addNodeIfAbsent; split <;> rfl

theorem edgeData_only_edges (g1 g2 : Graph) (u v : String) (h : g1.edges = g2.edges) :
    edgeData g1 u v = edgeData g2 u v := by
  unfold edgeData; rw [h]

theorem add_edge_eq_merge (g : Graph) (u v : String) (d d0 : Dict)
    (h : edgeData (addNodeIfAbsent (addNodeIfAbsent g u) v) u v = some d0) :
    add_edge g u v d = { addNodeIfAbsent (addNodeIfAbsent g u) v with
      edges := (addNodeIfAbsent (addNodeIfAbsent g u) v).edges.map (fun e =>
        if e.1 == u && e.2.1 == v then (e.1, e.2.1, dupdate e.2.2 d) else e) } := by
  unfold add_edge
  dsimp only
  rw [h]

theorem add_edge_eq_append (g : Graph) (u v : String) (d : Dict)
    (h : edgeData (addNodeIfAbsent (addNodeIfAbsent g u) v) u v = none) :
    add_edge g u v d = { addNodeIfAbsent (addNodeIfAbsent g u) v with
      edges := (addNodeIfAbsent (addNodeIfAbsent g u) v).edges ++ [(u, v, d)] } := by
  unfold add_edge
  dsimp only
  rw [h]

theorem edgeData_some_find (g : Graph) (u v : String) (d0 : Dict)
    (h : edgeData g u v = some d0) :
    ∃ e0, g.edges.find? (fun e => e.1 == u && e.2.1 == v) = some e0 ∧ e0.2.2 = d0 := by
  unfold edgeData at h
  cases hf : g.edges.find? (fun e => e.1 == u && e.2.1 == v) with
  | none => rw [hf] at h; simp at h
  | some e0 =>
    rw [hf] at h
    exact ⟨e0, rfl, by injection h⟩

theorem edgeData_none_find (g : Graph) (u v : String)
    (h : edgeData g u v = none) :
    g.edges.find? (fun e => e.1 == u && e.2.1 == v) = none := by
  unfold edgeData at h
  cases hf : g.edges.find? (fun e => e.1 == u && e.2.1 == v) with
  | none => rfl
  | some e0 => rw [hf] at h; simp at h

/-- After `add_edge g u v d` the ordered pair `(u, v)` always carries an
edge. -/
theorem edgeData_add_edge_isSome (g : Graph) (u v : String) (d : Dict) :
    (edgeData (add_edge g u v d) u v).isSome = true := by
  cases h : edgeData (addNodeIfAbsent (addNodeIfAbsent g u) v) u v with
  | some d0 =>
    rw [add_edge_eq_merge g u v d d0 h]
    obtain ⟨e0, hf, _⟩ := edgeData_some_find _ u v d0 h
    unfold edgeData
    dsimp only
    rw [find?_mapUpdate (fun (e : String × String × Dict) => e.1 == u && e.2.1 == v)
      (fun e => (e.1, e.2.1, dupdate e.2.2 d)) (fun a ha => ha) _ e0 hf]
    rfl
  | none =>
    rw [add_edge_eq_append g u v d h]
    have hn := edgeData_none_find _ u v h
    unfold edgeData
    dsimp only
    rw [find?_append_none _ _ _ hn]
    simp [List.find?]

/-! ### C4: multi-edge claim -/

def c4_d1 : Dict := [("source", .vstr "a"), ("target", .vstr "b"),
  ("type", .vstr "TRIGGERED"), ("weight", .vstr "1.0")]

def c4_d2 : Dict := [("source", .vstr "a"), ("target", .vstr "b"),
  ("type", .vstr "REINFORCES"), ("weight", .vstr "2.0")]

/-- C4 counterexample: adding two edges with the same source and target to
an empty graph leaves one stored edge, not two — the edge count rises by
one, refuting the multi-edge claim at this concrete input. -/
theorem c4_counterexample :
    ¬ number_of_edges (add_edge (add_edge emptyGraph "a" "b" c4_d1) "a" "b" c4_d2) =
        number_of_edges emptyGraph + 2 ∧
    number_of_edges (add_edge (add_edge emptyGraph "a" "b" c4_d1) "a" "b" c4_d2) = 1 := by
  decide

/-- C4 (amended): the `DiGraph`-backed store admits no multi-edges: a
second `add_edge` with the same source and target updates the existing
edge's attributes in place, leaving the edge count unchanged (so two calls
raise the count by at most one), and the pair still carries an edge. -/
theorem c4_add_edge_same_pair_collapses (g : Graph) (u v : String) (d1 d2 : Dict) :
    number_of_edges (add_edge (add_edge g u v d1) u v d2) =
      number_of_edges (add_edge g u v d1) ∧
    (edgeData (add_edge (add_edge g u v d1) u v d2) u v).isSome = true := by
  refine ⟨?_, edgeData_add_edge_isSome (add_edge g u v d1) u v d2⟩
  have h1 := edgeData_add_edge_isSome g u v d1
  have he : edgeData (addNodeIfAbsent (addNodeIfAbsent (add_edge g u v d1) u) v) u v =
      edgeData (add_edge g u v d1) u v :=
    edgeData_only_edges _ _ u v (by rw [edges_addNodeIfAbsent, edges_addNodeIfAbsent])
  cases h : edgeData (add_edge g u v d1) u v with
  | none => rw [h] at h1; simp at h1
  | some d0 =>
    rw [add_edge_eq_merge (add_edge g u v d1) u v d2 d0 (he.trans h)]
    unfold number_of_edges
    simp [edges_addNodeIfAbsent]

/-! ### C5: duplicate-id add_node -/

def c5_d1 : Dict := [("id", .vstr "n1"), ("type", .vstr "Belief"),
  ("text", .vstr "I always fail"), ("confidence", .vstr "0.9")]

def c5_d2 : Dict := [("id", .vstr "n1"), ("type", .vstr "Event"),
  ("description", .vstr "Got promoted")]

/-- C5 counterexample: re-adding id `n1` with a different attribute set
does not replace the stored dict — the old `confidence` field survives, so
the retrieved attributes are not exactly the second node's dict. -/
theorem c5_counterexample :
    ¬ get_node (add_node (add_node emptyGraph "n1" c5_d1) "n1" c5_d2) "n1" = some c5_d2 ∧
    dget ((get_node (add_node (add_node emptyGraph "n1" c5_d1) "n1" c5_d2) "n1").getD [])
      "confidence" = some (.vstr "0.9") ∧
    dget c5_d2 "confidence" = none := by
  decide

/-- C5 (amended): `add_node` with a duplicate id raises no error and has
dict-update semantics: keys of the new dict overwrite, but keys of the old
dict absent from the new one survive — the retrieved attributes are the
old dict updated with the new one, not the new dict alone. -/
theorem get_node_of_entry (g : Graph) (id : String) (pr : String × Dict)
    (h : findNodeEntry g id = some pr) : get_node g id = some pr.2 := by
  unfold get_node has_node nodeD
  rw [h]
  rfl

theorem get_node_of_no_entry (g : Graph) (id : String)
    (h : findNodeEntry g id = none) : get_node g id = none := by
  unfold get_node has_node
  rw [h]
  rfl

theorem add_node_existing (g : Graph) (id : String) (attrs : Dict) (pr : String × Dict)
    (h : findNodeEntry g id = some pr) :
    add_node g id attrs = { g with nodes := g.nodes.map (fun p =>
      if p.1 == id then (p.1, dupdate p.2 attrs) else p) } := by
  unfold add_node
  rw [h]

theorem c5_add_node_duplicate_merges (g : Graph) (id : String) (d1 d2 : Dict)
    (h : get_node g id = some d1) :
    get_node (add_node g id d2) id = some (dupdate d1 d2) := by
  cases hfe : findNodeEntry g id with
  | none => rw [get_node_of_no_entry g id hfe] at h; exact absurd h (by simp)
  | some pr =>
    rw [get_node_of_entry g id pr hfe] at h
    injection h with h
    have hmap := find?_mapUpdate (fun (p : String × Dict) => p.1 == id)
      (fun p => (p.1, dupdate p.2 d2)) (fun a ha => ha) g.nodes pr hfe
    rw [add_node_existing g id d2 pr hfe]
    have hfe2 : findNodeEntry { g with nodes := g.nodes.map (fun p =>
        if p.1 == id then (p.1, dupdate p.2 d2) else p) } id =
        some (pr.1, dupdate pr.2 d2) := by
      unfold findNodeEntry
      exact hmap
    rw [get_node_of_entry _ id _ hfe2, h]

/-- C5 witness: a concrete graph holding the first node dict. -/
theorem c5_witness :
    get_node (add_node emptyGraph "n1" c5_d1) "n1" = some c5_d1 ∧
    get_node (add_node (add_node emptyGraph "n1" c5_d1) "n1" c5_d2) "n1" =
      some (dupdate c5_d1 c5_d2) :=
  ⟨by decide, c5_add_node_duplicate_merges (add_node emptyGraph "n1" c5_d1) "n1"
    c5_d1 c5_d2 (by decide)⟩

/-! ### C10: empty query returns every node -/

theorem containsSub_nil : ∀ (h : List Char), containsSub [] h = true
  | [] => rfl
  | _ :: _ => by simp [containsSub, isPrefCh]

/-- C10: `find_nodes_by_text` with the empty query returns every node's
attribute dict (the empty search term is a substring of even the empty
default content used for nodes with no text-bearing field). -/
theorem c10_empty_query_returns_all_nodes (g : Graph) :
    find_nodes_by_text g "" = g.nodes.map Prod.snd := by
  unfold find_nodes_by_text
  have h : lowerChars ("".toList) = [] := rfl
  simp only [h, containsSub_nil, List.filter_true]

/-! ### C6: text search -/

/-- The spec's selection rule, in the spec's own words: the first present
field among `text`, `description`, `label`, `name`, checked in that
priority order (absent when the node has none of them). -/
def spec_first_text_field (d : Dict) : Option Val :=
  if hasKey d "text" then dget d "text"
  else if hasKey d "description" then dget d "description"
  else if hasKey d "label" then dget d "label"
  else if hasKey d "name" then dget d "name"
  else none

theorem hasKey_some (d : Dict) (k : String) (h : hasKey d k = true) :
    ∃ v, dget d k = some v := by
  unfold hasKey at h
  cases hv : dget d k with
  | none => rw [hv] at h; simp at h
  | some v => exact ⟨v, rfl⟩

theorem textContent_match_iff (d : Dict) (st : List Char) (hst : st ≠ []) :
    containsSub st (lowerChars (pyStr (textContent d)).toList) = true ↔
      ∃ v, spec_first_text_field d = some v ∧
        containsSub st (lowerChars (pyStr v).toList) = true := by
  unfold textContent spec_first_text_field
  cases h1 : hasKey d "text" with
  | true => obtain ⟨v, hv⟩ := hasKey_some d _ h1; simp [h1, hv]
  | false =>
  cases h2 : hasKey d "description" with
  | true => obtain ⟨v, hv⟩ := hasKey_some d _ h2; simp [h1, h2, hv]
  | false =>
  cases h3 : hasKey d "label" with
  | true => obtain ⟨v, hv⟩ := hasKey_some d _ h3; simp [h1, h2, h3, hv]
  | false =>
  cases h4 : hasKey d "name" with
  | true => obtain ⟨v, hv⟩ := hasKey_some d _ h4; simp [h1, h2, h3, h4, hv]
  | false =>
    simp only [h1, h2, h3, h4, Bool.false_eq_true, if_false]
    cases st with
    | nil => exact absurd rfl hst
    | cons c t => simp [containsSub, pyStr, lowerChars]

/-- C6: for a non-empty query, `find_nodes_by_text` returns exactly the
attribute dicts of nodes whose first present field among `text`,
`description`, `label`, `name` (priority order) contains the query
case-insensitively; a node with none of those fields is never returned
(its default content is empty and a non-empty query cannot match it). -/
theorem c6_find_nodes_by_text_spec (g : Graph) (q : String) (hq : q ≠ "") (d : Dict) :
    d ∈ find_nodes_by_text g q ↔
      ∃ p ∈ g.nodes, p.2 = d ∧ ∃ v, spec_first_text_field d = some v ∧
        containsSub (lowerChars q.toList) (lowerChars (pyStr v).toList) = true := by
  have hqt : q.toList ≠ [] := by
    intro hnil
    apply hq
    cases q with
    | mk data =>
      simp only [String.toList] at hnil
      rw [hnil]
  have hst : lowerChars q.toList ≠ [] := by
    simp only [lowerChars, ne_eq, List.map_eq_nil_iff]
    exact hqt
  unfold find_nodes_by_text
  simp only [List.mem_map, List.mem_filter]
  constructor
  · rintro ⟨p, ⟨hp, hmatch⟩, hpd⟩
    subst hpd
    exact ⟨p, hp, rfl, (textContent_match_iff p.2 _ hst).mp hmatch⟩
  · rintro ⟨p, hp, hpd, hv⟩
    subst hpd
    exact ⟨p, ⟨hp, (textContent_match_iff p.2 _ hst).mpr hv⟩, rfl⟩

def c6_anx : Dict := [("id", .vstr "e1"), ("type", .vstr "Emotion"),
  ("label", .vstr "Anxious"), ("intensity", .vnum 7)]

def c6_bare : Dict := [("id", .vstr "u1")]

def c6_graph : Graph := ⟨[("e1", c6_anx), ("u1", c6_bare)], []⟩

/-- C6 witness: the query `anxious` matches the node labelled `Anxious`
and misses the node with no text-bearing field. -/
theorem c6_witness :
    c6_anx ∈ find_nodes_by_text c6_graph "anxious" ∧
    c6_bare ∉ find_nodes_by_text c6_graph "anxious" := by
  constructor
  · exact (c6_find_nodes_by_text_spec c6_graph "anxious" (by decide) c6_anx).mpr
      ⟨("e1", c6_anx), by decide, rfl, Val.vstr "Anxious", by decide, by decide⟩
  · decide

/-! ### Tracking-store helper lemmas -/

theorem mlookup_mset_self {β : Type} (l : List (String × β)) (k : String) (v : β) :
    mlookup (mset l k v) k = some v := by
  unfold mset
  split
  next h =>
    unfold mlookup at h
    cases hf : l.find? (fun p => p.1 == k) with
    | none => rw [hf] at h; simp at h
    | some pr =>
      unfold mlookup
      rw [find?_mapUpdate (fun (p : String × β) => p.1 == k)
        (fun p => (p.1, v)) (fun a ha => ha) l pr hf]
      rfl
  next h =>
    unfold mlookup at h ⊢
    have hn : l.find? (fun p => p.1 == k) = none := by
      cases hf : l.find? (fun p => p.1 == k) with
      | none => rfl
      | some pr => rw [hf] at h; simp at h
    rw [find?_append_none _ _ _ hn]
    simp [List.find?]

/-! ### C8: score clamping in log_progress -/

/-- C8: `log_progress` on an existing experiment appends exactly one
progress entry, whose stored `marginal_gain_score` is the input clamped
into `[-3, 3]`: an in-range score is stored unchanged, a score above 3 is
stored as 3, and a score below -3 is stored as -3. -/
theorem c8_log_progress_clamps (s : TrackingState) (eid o n : String) (sc : Int)
    (t : String) (e : Experiment) (he : mlookup s.experiments eid = some e) :
    ∃ e2 entry, mlookup (log_progress s eid o n sc t).experiments eid = some e2 ∧
      e2.progress_log = e.progress_log ++ [entry] ∧
      -3 ≤ entry.marginal_gain_score ∧ entry.marginal_gain_score ≤ 3 ∧
      (-3 ≤ sc → sc ≤ 3 → entry.marginal_gain_score = sc) ∧
      (3 ≤ sc → entry.marginal_gain_score = 3) ∧
      (sc ≤ -3 → entry.marginal_gain_score = -3) := by
  unfold log_progress
  rw [he]
  dsimp only
  split
  · refine ⟨_, ⟨t, o, n, max (-3) (min 3 sc)⟩, mlookup_mset_self _ _ _, rfl,
      ?_, ?_, ?_, ?_, ?_⟩ <;> dsimp only <;> omega
  · refine ⟨_, ⟨t, o, n, max (-3) (min 3 sc)⟩, mlookup_mset_self _ _ _, rfl,
      ?_, ?_, ?_, ?_, ?_⟩ <;> dsimp only <;> omega

def c8_exp : Experiment :=
  { id := "exp_1", habit_id := some "hab_1", title := "4-7-8 breathing",
    description := "", success_criteria := "Feel calmer", status := "active",
    created_at := "2026-01-01T08:00:00", last_checked := some "2026-01-01",
    related_graph_nodes := [], progress_log := [] }

def c8_state : TrackingState :=
  { goals := [], habits := [], experiments := [("exp_1", c8_exp)] }

/-- C8 witness: logging with score 10 against a concrete stored
experiment. -/
theorem c8_witness :
    mlookup c8_state.experiments "exp_1" = some c8_exp ∧
    ∃ e2 entry,
      mlookup (log_progress c8_state "exp_1" "success" "went well" 10 "2026-01-02").experiments
        "exp_1" = some e2 ∧
      e2.progress_log = c8_exp.progress_log ++ [entry] ∧
      -3 ≤ entry.marginal_gain_score ∧ entry.marginal_gain_score ≤ 3 ∧
      (-3 ≤ (10 : Int) → (10 : Int) ≤ 3 → entry.marginal_gain_score = 10) ∧
      (3 ≤ (10 : Int) → entry.marginal_gain_score = 3) ∧
      ((10 : Int) ≤ -3 → entry.marginal_gain_score = -3) :=
  ⟨by decide, c8_log_progress_clamps c8_state "exp_1" "success" "went well" 10
    "2026-01-02" c8_exp (by decide)⟩

/-! ### C2: auto-completion at seven successful days -/

/-- C2: logging progress on a stored experiment whose status is `active`
leaves it `completed` exactly when the resulting log has at least seven
successful days (outcome `success` or `partial`), and leaves it `active`
whenever the resulting count is still below seven. -/
theorem c2_log_progress_completes_at_seven (s : TrackingState) (eid o n : String)
    (sc : Int) (t : String) (e : Experiment)
    (he : mlookup s.experiments eid = some e) (hact : e.status = "active") :
    ∃ e2, mlookup (log_progress s eid o n sc t).experiments eid = some e2 ∧
      (e2.status = "completed" ↔ 7 ≤ successful_days e2) ∧
      (successful_days e2 < 7 → e2.status = "active") := by
  unfold log_progress
  rw [he]
  dsimp only
  split
  next hc =>
    simp only [Bool.and_eq_true, decide_eq_true_eq, beq_iff_eq] at hc
    refine ⟨_, mlookup_mset_self _ _ _, ?_, ?_⟩
    · exact ⟨fun _ => hc.1, fun _ => rfl⟩
    · intro hlt
      exact absurd (Nat.lt_of_lt_of_le hlt hc.1) (Nat.lt_irrefl _)
  next hc =>
    simp only [Bool.and_eq_true, decide_eq_true_eq, beq_iff_eq, not_and] at hc
    refine ⟨_, mlookup_mset_self _ _ _, ?_, fun _ => hact⟩
    constructor
    · intro hcompleted
      have h2 : ("active" : String) = "completed" := by
        rw [← hact]; exact hcompleted
      exact absurd h2 (by decide)
    · intro h7
      exact absurd hact (by intro ha; exact hc h7 ha)

def c2_entries : List ProgressEntry :=
  [⟨"2026-01-01", "success", "", 1⟩, ⟨"2026-01-02", "partial", "", 1⟩,
   ⟨"2026-01-03", "success", "", 2⟩, ⟨"2026-01-04", "not_tried", "", 0⟩,
   ⟨"2026-01-05", "success", "", 1⟩, ⟨"2026-01-06", "partial", "", 1⟩,
   ⟨"2026-01-07", "success", "", 2⟩]

def c2_exp : Experiment :=
  { id := "exp_2", habit_id := some "hab_1", title := "anchor song",
    description := "", success_criteria := "", status := "active",
    created_at := "2026-01-01T08:00:00", last_checked := some "2026-01-07",
    related_graph_nodes := [],
    progress_log := c2_entries.take 6 }

def c2_state : TrackingState :=
  { goals := [], habits := [], experiments := [("exp_2", c2_exp)] }

/-- C2 witness: an active experiment with six successful days transitions
on the seventh successful log. -/
theorem c2_witness :
    mlookup c2_state.experiments "exp_2" = some c2_exp ∧ c2_exp.status = "active" ∧
    ∃ e2, mlookup (log_progress c2_state "exp_2" "success" "done" 2 "2026-01-07").experiments
        "exp_2" = some e2 ∧
      (e2.status = "completed" ↔ 7 ≤ successful_days e2) ∧
      (successful_days e2 < 7 → e2.status = "active") :=
  ⟨by decide, by decide, c2_log_progress_completes_at_seven c2_state "exp_2" "success"
    "done" 2 "2026-01-07" c2_exp (by decide) (by decide)⟩

/-! ### C3: goal deletion cascades to habits but not experiments -/

theorem mlookup_none_not_mem {β : Type} (l : List (String × β)) (k : String)
    (h : mlookup l k = none) (v : β) : (k, v) ∉ l := by
  intro hm
  unfold mlookup at h
  have hn : l.find? (fun p => p.1 == k) = none := by
    cases hf : l.find? (fun p => p.1 == k) with
    | none => rfl
    | some pr => rw [hf] at h; simp at h
  rw [List.find?_eq_none] at hn
  exact hn (k, v) hm (by simp)

theorem mlookup_mdel_self {β : Type} (l : List (String × β)) (k : String) :
    mlookup (mdel l k) k = none := by
  unfold mlookup mdel
  have hn : (l.filter (fun p => !(p.1 == k))).find? (fun p => p.1 == k) = none := by
    rw [List.find?_eq_none]
    intro p hp
    have := (List.mem_filter.mp hp).2
    simp at this ⊢
    exact this
  rw [hn]
  rfl

theorem delete_habit_none (s : TrackingState) (hid : String)
    (h : mlookup s.habits hid = none) : delete_habit s hid = (s, false) := by
  unfold delete_habit
  rw [h]

theorem delete_habit_some_habits (s : TrackingState) (hid : String) (habit : Habit)
    (h : mlookup s.habits hid = some habit) :
    (delete_habit s hid).1.habits = mdel s.habits hid := by
  unfold delete_habit
  rw [h]
  dsimp only
  split
  · split
    · split <;> rfl
    · rfl
  · rfl

theorem delete_habit_experiments (s : TrackingState) (hid : String) :
    (delete_habit s hid).1.experiments = s.experiments := by
  unfold delete_habit
  split
  · rfl
  · dsimp only
    split
    · split
      · split <;> rfl
      · rfl
    · rfl

theorem delete_habit_mem (s : TrackingState) (hid k : String) (h : Habit)
    (hm : (k, h) ∈ (delete_habit s hid).1.habits) : (k, h) ∈ s.habits ∧ k ≠ hid := by
  cases hml : mlookup s.habits hid with
  | none =>
    rw [delete_habit_none s hid hml] at hm
    exact ⟨hm, fun hk => mlookup_none_not_mem s.habits hid hml h (hk ▸ hm)⟩
  | some habit =>
    rw [delete_habit_some_habits s hid habit hml] at hm
    unfold mdel at hm
    rw [List.mem_filter] at hm
    refine ⟨hm.1, ?_⟩
    have := hm.2
    simp at this
    exact this

theorem fold_delete_experiments (ids : List String) (s : TrackingState) :
    (ids.foldl (fun st hid => (delete_habit st hid).1) s).experiments = s.experiments := by
  induction ids generalizing s with
  | nil => rfl
  | cons hid rest ih =>
    rw [List.foldl_cons, ih, delete_habit_experiments]

theorem fold_delete_habits_mem (ids : List String) (s : TrackingState) (k : String)
    (h : Habit) (hm : (k, h) ∈ (ids.foldl (fun st hid => (delete_habit st hid).1) s).habits) :
    (k, h) ∈ s.habits ∧ k ∉ ids := by
  induction ids generalizing s with
  | nil => exact ⟨hm, by simp⟩
  | cons hid rest ih =>
    rw [List.foldl_cons] at hm
    obtain ⟨hm1, hrest⟩ := ih (delete_habit s hid).1 hm
    obtain ⟨hm0, hne⟩ := delete_habit_mem s hid k h hm1
    refine ⟨hm0, ?_⟩
    simp only [List.mem_cons, not_or]
    exact ⟨hne, hrest⟩

/-- C3: deleting a stored goal removes the goal and leaves no habit
referencing it, while the experiment collection is untouched (so the
deleted habits' experiments survive with their `habit_id` unchanged).
Uses the invariant that each habit is keyed by its own id, which every
`create_habit` insertion maintains. -/
theorem c3_delete_goal_cascades_to_habits_only (s : TrackingState) (gid : String)
    (hg : (mlookup s.goals gid).isSome = true)
    (hkeys : ∀ p ∈ s.habits, p.2.id = p.1) :
    mlookup (delete_goal s gid).1.goals gid = none ∧
    (∀ h ∈ mvalues (delete_goal s gid).1.habits, ¬ h.goal_id = some gid) ∧
    (delete_goal s gid).1.experiments = s.experiments := by
  have hnn : (mlookup s.goals gid).isNone = false := by
    cases hml : mlookup s.goals gid with
    | none => rw [hml] at hg; simp at hg
    | some goal => rfl
  unfold delete_goal
  rw [if_neg (by simp [hnn])]
  dsimp only
  refine ⟨mlookup_mdel_self _ _, ?_, fold_delete_experiments _ _⟩
  intro h hm
  intro hgoal
  unfold mvalues at hm
  rw [List.mem_map] at hm
  obtain ⟨p, hp, hph⟩ := hm
  have hpair : (p.1, h) ∈ (((get_habits_for_goal s gid).map (fun h => h.id)).foldl
      (fun st hid => (delete_habit st hid).1) s).habits := by
    have : p = (p.1, h) := by
      cases p with
      | mk a b => simp at hph; rw [hph]
    rw [← this]
    exact hp
  obtain ⟨hmem, hnotin⟩ := fold_delete_habits_mem _ s p.1 h hpair
  apply hnotin
  rw [List.mem_map]
  refine ⟨h, ?_, (hkeys (p.1, h) hmem).symm ▸ rfl⟩
  unfold get_habits_for_goal
  rw [List.mem_filter]
  constructor
  · unfold mvalues
    rw [List.mem_map]
    exact ⟨(p.1, h), hmem, rfl⟩
  · simp [hgoal]

def c3_goal : TargetGoal :=
  { id := "goal_1", title := "Emotionally regulated person",
    description := "Responds thoughtfully to triggers", target_date := some "2026-06-14",
    habits := ["hab_1", "hab_2"], status := "active",
    created_at := "2026-01-01T08:00:00", last_updated := "2026-01-01T08:00:00" }

def c3_hab1 : Habit :=
  { id := "hab_1", goal_id := some "goal_1", title := "Recognize overload",
    description := "", components := ["Body awareness"], experiments := ["exp_1"],
    status := "developing", created_at := "2026-01-01T08:00:00",
    last_updated := "2026-01-01T08:00:00" }

def c3_hab2 : Habit :=
  { id := "hab_2", goal_id := some "goal_1", title := "Name needs",
    description := "", components := [], experiments := [],
    status := "developing", created_at := "2026-01-01T08:00:00",
    last_updated := "2026-01-01T08:00:00" }

def c3_exp : Experiment :=
  { id := "exp_1", habit_id := some "hab_1", title := "4-7-8 breathing",
    description := "", success_criteria := "Feel calmer", status := "active",
    created_at := "2026-01-01T08:00:00", last_checked := some "2026-01-01",
    related_graph_nodes := [], progress_log := [] }

def c3_state : TrackingState :=
  { goals := [("goal_1", c3_goal)],
    habits := [("hab_1", c3_hab1), ("hab_2", c3_hab2)],
    experiments := [("exp_1", c3_exp)] }

/-- C3 witness: a goal with two habits and one experiment under them. -/
theorem c3_witness :
    (mlookup c3_state.goals "goal_1").isSome = true ∧
    (mlookup (delete_goal c3_state "goal_1").1.goals "goal_1" = none ∧
     (∀ h ∈ mvalues (delete_goal c3_state "goal_1").1.habits, ¬ h.goal_id = some "goal_1") ∧
     (delete_goal c3_state "goal_1").1.experiments = c3_state.experiments) :=
  ⟨by decide, c3_delete_goal_cascades_to_habits_only c3_state "goal_1"
    (by decide) (by decide)⟩

/-! ### C7: follow-up detection -/

def c7_exp : Experiment :=
  { id := "exp_9", habit_id := none, title := "finished experiment",
    description := "", success_criteria := "", status := "completed",
    created_at := "2025-09-01T08:00:00", last_checked := some "2025-10-11",
    related_graph_nodes := [], progress_log := [] }

def c7_state : TrackingState :=
  { goals := [], habits := [], experiments := [("exp_9", c7_exp)] }

/-- C7 counterexample: a stored experiment whose `last_checked` parses to
a date strictly before today is nevertheless not returned, because its
status is `completed` — the operation only ever scans experiments whose
status is `active` or `testing`, which the claim does not restrict to. -/
theorem c7_counterexample :
    c7_exp ∈ mvalues c7_state.experiments ∧
    parse_last_checked c7_exp.last_checked = some ⟨2025, 10, 11⟩ ∧
    dateLt ⟨2025, 10, 11⟩ ⟨2025, 10, 12⟩ = true ∧
    c7_exp ∉ get_experiments_needing_followup c7_state ⟨2025, 10, 12⟩ := by
  decide

/-- C7 (amended): among experiments whose status is `active` or `testing`,
`get_experiments_needing_followup` returns exactly those whose
`last_checked` is strictly before today (pure date comparison) or is
missing or unparsable as an ISO date (parse failure is inclusive); in
particular an active experiment checked yesterday is returned and one
checked today is not. -/
theorem c7_followup_characterization (s : TrackingState) (today : PyDate) (e : Experiment) :
    e ∈ get_experiments_needing_followup s today ↔
      e ∈ mvalues s.experiments ∧ (e.status = "active" ∨ e.status = "testing") ∧
        (parse_last_checked e.last_checked = none ∨
         ∃ d, parse_last_checked e.last_checked = some d ∧ dateLt d today = true) := by
  unfold get_experiments_needing_followup get_active_experiments
  rw [List.mem_filter, List.mem_filter]
  constructor
  · rintro ⟨⟨hmem, hstat⟩, hcond⟩
    refine ⟨hmem, by simpa using hstat, ?_⟩
    cases hp : parse_last_checked e.last_checked with
    | none => exact Or.inl rfl
    | some d0 =>
      simp only [hp] at hcond
      exact Or.inr ⟨d0, rfl, hcond⟩
  · rintro ⟨hmem, hstat, hcond⟩
    refine ⟨⟨hmem, by simpa using hstat⟩, ?_⟩
    cases hp : parse_last_checked e.last_checked with
    | none => simp only [hp]
    | some d0 =>
      obtain hnone | ⟨d1, hd1, hlt⟩ := hcond
      · rw [hp] at hnone
        exact absurd hnone (by simp)
      · rw [hp] at hd1
        injection hd1 with hd1
        subst hd1
        simp only [hp]
        exact hlt

/-! ### C9: save/load round trip preserves node and edge counts -/

theorem has_node_only_nodes (g1 g2 : Graph) (x : String) (h : g1.nodes = g2.nodes) :
    has_node g1 x = has_node g2 x := by
  unfold has_node findNodeEntry
  rw [h]

theorem add_node_fresh (g : Graph) (id : String) (attrs : Dict)
    (h : findNodeEntry g id = none) :
    add_node g id attrs = { g with nodes := g.nodes ++ [(id, attrs)] } := by
  unfold add_node
  rw [h]

theorem has_node_false_entry (g : Graph) (id : String) (h : has_node g id = false) :
    findNodeEntry g id = none := by
  unfold has_node at h
  cases hf : findNodeEntry g id with
  | none => rfl
  | some pr => rw [hf] at h; simp at h

theorem addNodeIfAbsent_present (g : Graph) (id : String) (h : has_node g id = true) :
    addNodeIfAbsent g id = g := by
  unfold addNodeIfAbsent
  rw [if_pos h]

theorem build_nodes (l : List (String × Dict)) (g0 : Graph)
    (hfresh : ∀ p ∈ l, has_node g0 p.1 = false)
    (hnd : (l.map Prod.fst).Nodup) :
    (l.foldl (fun g p => add_node g p.1 p.2) g0).nodes = g0.nodes ++ l ∧
    (l.foldl (fun g p => add_node g p.1 p.2) g0).edges = g0.edges := by
  induction l generalizing g0 with
  | nil => simp
  | cons p rest ih =>
    rw [List.foldl_cons]
    have hfe : findNodeEntry g0 p.1 = none :=
      has_node_false_entry g0 p.1 (hfresh p (by simp))
    rw [add_node_fresh g0 p.1 p.2 hfe]
    rw [List.map_cons] at hnd
    have hndc := List.nodup_cons.mp hnd
    have hfresh2 : ∀ q ∈ rest,
        has_node { g0 with nodes := g0.nodes ++ [(p.1, p.2)] } q.1 = false := by
      intro q hq
      unfold has_node findNodeEntry
      dsimp only
      rw [find?_append_none _ _ _
        (has_node_false_entry g0 q.1 (hfresh q (by simp [hq])))]
      have hne : (p.1 == q.1) = false := by
        rw [beq_eq_false_iff_ne]
        intro he
        exact hndc.1 (by rw [he]; exact List.mem_map.mpr ⟨q, hq, rfl⟩)
      simp [List.find?, hne]
    obtain ⟨hn, he⟩ := ih { g0 with nodes := g0.nodes ++ [(p.1, p.2)] } hfresh2 hndc.2
    refine ⟨?_, he⟩
    rw [hn]
    dsimp only
    rw [List.append_assoc]
    rfl

theorem build_edges (l : List (String × String × Dict)) (g0 : Graph)
    (hsrc : ∀ e ∈ l, has_node g0 e.1 = true)
    (htgt : ∀ e ∈ l, has_node g0 e.2.1 = true)
    (hfresh : ∀ e ∈ l, edgeData g0 e.1 e.2.1 = none)
    (hnd : (l.map (fun e => (e.1, e.2.1))).Nodup) :
    (l.foldl (fun g e => add_edge g e.1 e.2.1 e.2.2) g0).nodes = g0.nodes ∧
    (l.foldl (fun g e => add_edge g e.1 e.2.1 e.2.2) g0).edges = g0.edges ++ l := by
  induction l generalizing g0 with
  | nil => simp
  | cons e rest ih =>
    rw [List.foldl_cons]
    have ha2 : addNodeIfAbsent (addNodeIfAbsent g0 e.1) e.2.1 = g0 := by
      rw [addNodeIfAbsent_present _ _ (hsrc e (by simp))]
      exact addNodeIfAbsent_present _ _ (htgt e (by simp))
    have heq : add_edge g0 e.1 e.2.1 e.2.2 =
        { g0 with edges := g0.edges ++ [(e.1, e.2.1, e.2.2)] } := by
      have h := add_edge_eq_append g0 e.1 e.2.1 e.2.2
        (by rw [ha2]; exact hfresh e (by simp))
      rw [ha2] at h
      exact h
    rw [heq]
    rw [List.map_cons] at hnd
    have hndc := List.nodup_cons.mp hnd
    have hsrc2 : ∀ q ∈ rest,
        has_node { g0 with edges := g0.edges ++ [(e.1, e.2.1, e.2.2)] } q.1 = true := by
      intro q hq
      exact hsrc q (by simp [hq])
    have htgt2 : ∀ q ∈ rest,
        has_node { g0 with edges := g0.edges ++ [(e.1, e.2.1, e.2.2)] } q.2.1 = true := by
      intro q hq
      exact htgt q (by simp [hq])
    have hfresh2 : ∀ q ∈ rest,
        edgeData { g0 with edges := g0.edges ++ [(e.1, e.2.1, e.2.2)] } q.1 q.2.1 = none := by
      intro q hq
      unfold edgeData
      dsimp only
      rw [find?_append_none _ _ _
        (edgeData_none_find g0 q.1 q.2.1 (hfresh q (by simp [hq])))]
      have hne : ¬ ((e.1, e.2.1) = (q.1, q.2.1)) := by
        intro he
        refine hndc.1 ?_
        rw [he]
        exact List.mem_map.mpr ⟨q, hq, rfl⟩
      have hb : (e.1 == q.1 && e.2.1 == q.2.1) = false := by
        rw [Bool.and_eq_false_iff]
        by_cases h1 : e.1 = q.1
        · right
          rw [beq_eq_false_iff_ne]
          intro h2
          exact hne (by rw [h1, h2])
        · left
          rw [beq_eq_false_iff_ne]
          exact h1
      simp [List.find?, hb]
    obtain ⟨hn, he2⟩ := ih { g0 with edges := g0.edges ++ [(e.1, e.2.1, e.2.2)] }
      hsrc2 htgt2 hfresh2 hndc.2
    refine ⟨hn, ?_⟩
    rw [he2]
    dsimp only
    rw [List.append_assoc]
    rfl

/-- C9: for every well-formed in-memory graph, serializing with
`save_graph` (`node_link_data`) and re-reading with `load_graph`
(`node_link_graph`) yields a graph with the same node count and the same
edge count. -/
theorem c9_roundtrip_preserves_counts (g : Graph) (hWF : GraphWF g) :
    number_of_nodes (roundTrip g) = number_of_nodes g ∧
    number_of_edges (roundTrip g) = number_of_edges g := by
  unfold roundTrip node_link_graph node_link_data
  dsimp only
  obtain ⟨hn1, he1⟩ := build_nodes g.nodes emptyGraph (fun p _ => rfl) hWF.nodesNodup
  obtain ⟨hn2, he2⟩ := build_edges g.edges
    (g.nodes.foldl (fun g p => add_node g p.1 p.2) emptyGraph)
    (fun e he =>
      (has_node_only_nodes _ g e.1 (by rw [hn1]; rfl)).trans (hWF.srcIn e he))
    (fun e he =>
      (has_node_only_nodes _ g e.2.1 (by rw [hn1]; rfl)).trans (hWF.tgtIn e he))
    (fun e _ => by unfold edgeData; rw [he1]; rfl)
    hWF.edgesNodup
  constructor
  · unfold number_of_nodes
    rw [hn2, hn1]
    simp [emptyGraph]
  · unfold number_of_edges
    rw [he2, he1]
    simp [emptyGraph]

def c9_graph : Graph :=
  ⟨[("a", [("id", .vstr "a"), ("type", .vstr "Event"), ("description", .vstr "deadline")]),
    ("b", [("id", .vstr "b"), ("type", .vstr "Emotion"), ("label", .vstr "Anxious")])],
   [("a", "b", [("source", .vstr "a"), ("target", .vstr "b"), ("type", .vstr "TRIGGERED"),
     ("weight", .vnum 1)])]⟩

/-- C9 witness: a concrete two-node one-edge well-formed graph. -/
theorem c9_witness :
    GraphWF c9_graph ∧
    number_of_nodes (roundTrip c9_graph) = number_of_nodes c9_graph ∧
    number_of_edges (roundTrip c9_graph) = number_of_edges c9_graph :=
  ⟨⟨by decide, by decide, by decide, by decide⟩,
   c9_roundtrip_preserves_counts c9_graph ⟨by decide, by decide, by decide, by decide⟩⟩

/-! ### C1: the ego walk -/

theorem mem_setAdd (s : List String) (y x : String) :
    x ∈ setAdd s y ↔ x ∈ s ∨ x = y := by
  unfold setAdd
  split
  next h =>
    constructor
    · exact fun hx => Or.inl hx
    · rintro (hx | rfl)
      · exact hx
      · exact h
  next h =>
    simp [List.mem_append]

theorem pn_subNodes (cid : String) (cdepth : Nat) :
    ∀ (items : List NeighborItem) (visited subNodes : List String)
      (queue : List (String × Nat)) (subEdges : List SubEdge) (x : String),
      x ∈ (processNeighbors cid cdepth items visited subNodes queue subEdges).2.1 ↔
        x ∈ subNodes ∨ ∃ item ∈ items, dictId item.node = x
  | [], visited, subNodes, queue, subEdges, x => by
    simp [processNeighbors]
  | item :: rest, visited, subNodes, queue, subEdges, x => by
    unfold processNeighbors
    dsimp only
    split
    · rw [pn_subNodes cid cdepth rest _ _ _ _ x, mem_setAdd]
      constructor
      · rintro ((hx | hx) | ⟨it, hit, hid2⟩)
        · exact Or.inl hx
        · exact Or.inr ⟨item, List.mem_cons_self _ _, hx.symm⟩
        · exact Or.inr ⟨it, List.mem_cons_of_mem _ hit, hid2⟩
      · rintro (hx | ⟨it, hit, hid2⟩)
        · exact Or.inl (Or.inl hx)
        · rcases List.mem_cons.mp hit with rfl | hit2
          · exact Or.inl (Or.inr hid2.symm)
          · exact Or.inr ⟨it, hit2, hid2⟩
    · rw [pn_subNodes cid cdepth rest _ _ _ _ x, mem_setAdd]
      constructor
      · rintro ((hx | hx) | ⟨it, hit, hid2⟩)
        · exact Or.inl hx
        · exact Or.inr ⟨item, List.mem_cons_self _ _, hx.symm⟩
        · exact Or.inr ⟨it, List.mem_cons_of_mem _ hit, hid2⟩
      · rintro (hx | ⟨it, hit, hid2⟩)
        · exact Or.inl (Or.inl hx)
        · rcases List.mem_cons.mp hit with rfl | hit2
          · exact Or.inl (Or.inr hid2.symm)
          · exact Or.inr ⟨it, hit2, hid2⟩

theorem pn_queue_mem (cid : String) (cdepth : Nat) :
    ∀ (items : List NeighborItem) (visited subNodes : List String)
      (queue : List (String × Nat)) (subEdges : List SubEdge) (q : String × Nat),
      q ∈ (processNeighbors cid cdepth items visited subNodes queue subEdges).2.2.1 →
        q ∈ queue ∨ q.2 = cdepth + 1
  | [], visited, subNodes, queue, subEdges, q => fun h => Or.inl h
  | item :: rest, visited, subNodes, queue, subEdges, q => by
    unfold processNeighbors
    dsimp only
    split
    · intro h
      exact pn_queue_mem cid cdepth rest _ _ _ _ q h
    · intro h
      rcases pn_queue_mem cid cdepth rest _ _ _ _ q h with hq | hq
      · rcases List.mem_append.mp hq with hq2 | hq2
        · exact Or.inl hq2
        · right
          rw [List.mem_singleton.mp hq2]
      · exact Or.inr hq

theorem pn_queue_len (cid : String) (cdepth : Nat) :
    ∀ (items : List NeighborItem) (visited subNodes : List String)
      (queue : List (String × Nat)) (subEdges : List SubEdge),
      (processNeighbors cid cdepth items visited subNodes queue subEdges).2.2.1.length ≤
        queue.length + items.length
  | [], visited, subNodes, queue, subEdges => by
    simp [processNeighbors]
  | item :: rest, visited, subNodes, queue, subEdges => by
    unfold processNeighbors
    dsimp only
    split
    · have h := pn_queue_len cid cdepth rest visited
        (setAdd subNodes (dictId item.node)) queue
        (subEdges ++ [⟨if item.direction == "outgoing" then cid else dictId item.node,
          if item.direction == "outgoing" then dictId item.node else cid,
          (dget item.edge "type").getD .vnull⟩])
      simp only [List.length_cons]
      omega
    · have h := pn_queue_len cid cdepth rest (visited ++ [dictId item.node])
        (setAdd subNodes (dictId item.node)) (queue ++ [(dictId item.node, cdepth + 1)])
        (subEdges ++ [⟨if item.direction == "outgoing" then cid else dictId item.node,
          if item.direction == "outgoing" then dictId item.node else cid,
          (dget item.edge "type").getD .vnull⟩])
      simp only [List.length_cons, List.length_append, List.length_singleton,
        List.length_nil] at h ⊢
      omega

theorem egoLoop_drain (g : Graph) (depth : Nat) :
    ∀ (queue : List (String × Nat)) (fuel : Nat) (visited subNodes : List String)
      (subEdges : List SubEdge),
      (∀ q ∈ queue, depth ≤ q.2) → queue.length ≤ fuel →
      egoLoop g depth fuel queue visited subNodes subEdges = (subNodes, subEdges)
  | [], fuel, visited, subNodes, subEdges, _, _ => by
    cases fuel <;> rfl
  | (cid, cdepth) :: rest, fuel, visited, subNodes, subEdges, hq, hlen => by
    cases fuel with
    | zero => simp at hlen
    | succ f =>
      unfold egoLoop
      rw [if_pos (hq (cid, cdepth) (by simp))]
      refine egoLoop_drain g depth rest f visited subNodes subEdges
        (fun q hq2 => hq q (by simp [hq2])) ?_
      simp only [List.length_cons] at hlen
      omega

theorem get_neighbors_both (g : Graph) (a : String) (ha : has_node g a = true) :
    get_neighbors g a "both" =
      (successors g a).map (fun y =>
        ⟨nodeD g y, (edgeData g a y).getD [], "outgoing"⟩) ++
      (predecessors g a).map (fun y =>
        ⟨nodeD g y, (edgeData g y a).getD [], "incoming"⟩) := by
  unfold get_neighbors
  rw [ha]
  rfl

theorem get_neighbors_both_length (g : Graph) (a : String) :
    (get_neighbors g a "both").length ≤ 2 * g.edges.length := by
  cases hha : has_node g a with
  | false =>
    unfold get_neighbors
    rw [hha]
    simp
  | true =>
    rw [get_neighbors_both g a hha]
    rw [List.length_append, List.length_map, List.length_map]
    unfold successors predecessors
    rw [List.length_map, List.length_map]
    have h1 := List.length_filter_le (fun (e : String × String × Dict) => e.1 == a) g.edges
    have h2 := List.length_filter_le (fun (e : String × String × Dict) => e.2.1 == a) g.edges
    omega

theorem mem_successors (g : Graph) (a x : String) :
    x ∈ successors g a ↔ ∃ d, (a, x, d) ∈ g.edges := by
  unfold successors
  rw [List.mem_map]
  constructor
  · rintro ⟨e, he, hx⟩
    have hm := List.mem_filter.mp he
    have hea : e.1 = a := by simpa using hm.2
    refine ⟨e.2.2, ?_⟩
    have hrw : e = (a, x, e.2.2) := by
      rw [← hea, ← hx]
    rw [← hrw]
    exact hm.1
  · rintro ⟨d, hd⟩
    exact ⟨(a, x, d), List.mem_filter.mpr ⟨hd, by simp⟩, rfl⟩

theorem mem_predecessors (g : Graph) (a x : String) :
    x ∈ predecessors g a ↔ ∃ d, (x, a, d) ∈ g.edges := by
  unfold predecessors
  rw [List.mem_map]
  constructor
  · rintro ⟨e, he, hx⟩
    have hm := List.mem_filter.mp he
    have hea : e.2.1 = a := by simpa using hm.2
    refine ⟨e.2.2, ?_⟩
    have hrw : e = (x, a, e.2.2) := by
      rw [← hea, ← hx]
    rw [← hrw]
    exact hm.1
  · rintro ⟨d, hd⟩
    exact ⟨(x, a, d), List.mem_filter.mpr ⟨hd, by simp⟩, rfl⟩

theorem dictId_nodeD (g : Graph) (hid : IdConsistent g) (y : String)
    (hy : has_node g y = true) : dictId (nodeD g y) = y := by
  unfold has_node at hy
  cases hfe : findNodeEntry g y with
  | none => rw [hfe] at hy; simp at hy
  | some pr =>
    have hmem : pr ∈ g.nodes := List.mem_of_find?_eq_some hfe
    have hkey : pr.1 = y := by
      have := List.find?_some hfe
      simpa using this
    have hidv := hid pr hmem
    have hnd : nodeD g y = pr.2 := by
      unfold nodeD
      rw [hfe]
      rfl
    rw [hnd]
    unfold dictId
    rw [hidv]
    exact hkey

theorem neighbors_ids (g : Graph) (a : String) (hWF : GraphWF g)
    (hid : IdConsistent g) (ha : has_node g a = true) (x : String) :
    (∃ item ∈ get_neighbors g a "both", dictId item.node = x) ↔
      (∃ d, (a, x, d) ∈ g.edges) ∨ (∃ d, (x, a, d) ∈ g.edges) := by
  rw [get_neighbors_both g a ha]
  constructor
  · rintro ⟨item, hitem, hidx⟩
    rcases List.mem_append.mp hitem with hout | hin
    · obtain ⟨y, hy, hiy⟩ := List.mem_map.mp hout
      subst hiy
      obtain ⟨d, hd⟩ := (mem_successors g a y).mp hy
      have hyn : has_node g y = true := hWF.tgtIn (a, y, d) hd
      have hxy : y = x := by
        rw [← hidx]
        exact (dictId_nodeD g hid y hyn).symm
      subst hxy
      exact Or.inl ⟨d, hd⟩
    · obtain ⟨y, hy, hiy⟩ := List.mem_map.mp hin
      subst hiy
      obtain ⟨d, hd⟩ := (mem_predecessors g a y).mp hy
      have hyn : has_node g y = true := hWF.srcIn (y, a, d) hd
      have hxy : y = x := by
        rw [← hidx]
        exact (dictId_nodeD g hid y hyn).symm
      subst hxy
      exact Or.inr ⟨d, hd⟩
  · rintro (⟨d, hd⟩ | ⟨d, hd⟩)
    · refine ⟨⟨nodeD g x, (edgeData g a x).getD [], "outgoing"⟩, ?_, ?_⟩
      · exact List.mem_append_left _
          (List.mem_map.mpr ⟨x, (mem_successors g a x).mpr ⟨d, hd⟩, rfl⟩)
      · exact dictId_nodeD g hid x (hWF.tgtIn (a, x, d) hd)
    · refine ⟨⟨nodeD g x, (edgeData g x a).getD [], "incoming"⟩, ?_, ?_⟩
      · exact List.mem_append_right _
          (List.mem_map.mpr ⟨x, (mem_predecessors g a x).mpr ⟨d, hd⟩, rfl⟩)
      · exact dictId_nodeD g hid x (hWF.srcIn (x, a, d) hd)

/-- A directed edge between two node ids (with some attribute payload). -/
def hasEdge (g : Graph) (u v : String) : Prop := ∃ d, (u, v, d) ∈ g.edges

/-- C1: `ego_walk` on an empty anchor list returns exactly the fixed
string, and with one anchor node at depth 1 the traversed subgraph's node
set consists of exactly the anchor and its direct neighbors in either edge
direction — so no node at graph distance two or more is included. -/
theorem c1_ego_walk (g : Graph) (a : String) (dep : Nat)
    (hWF : GraphWF g) (hid : IdConsistent g) (ha : has_node g a = true) :
    ego_walk g [] dep = "No relevant context found in graph." ∧
    ∀ x, x ∈ egoWalkNodes g [a] 1 ↔ x = a ∨ hasEdge g a x ∨ hasEdge g x a := by
  constructor
  · rfl
  · intro x
    unfold egoWalkNodes egoRun
    have hsetOf : setOf [a] = [a] := by simp [setOf, setAdd]
    rw [hsetOf]
    rw [show ([a].map (fun nid => (nid, 0))) = [(a, 0)] from rfl]
    rw [show ([a] : List String).length = 1 from rfl]
    unfold egoLoop
    rw [if_neg (by omega)]
    dsimp only
    set pr := processNeighbors a 0 (get_neighbors g a "both") [a] [a] [] [] with hpr
    have hqall : ∀ q ∈ pr.2.2.1, 1 ≤ q.2 := by
      intro q hq2
      rcases pn_queue_mem a 0 (get_neighbors g a "both") [a] [a] [] [] q
        (hpr ▸ hq2) with h | h
      · simp at h
      · omega
    have hlen : pr.2.2.1.length ≤ 1 + 2 * g.edges.length := by
      have h1 := pn_queue_len a 0 (get_neighbors g a "both") [a] [a] [] []
      have h2 := get_neighbors_both_length g a
      rw [← hpr] at h1
      simp only [List.length_nil] at h1
      omega
    rw [egoLoop_drain g 1 pr.2.2.1 (1 + 2 * g.edges.length) pr.1 pr.2.1 pr.2.2.2
      hqall hlen]
    dsimp only
    rw [hpr]
    rw [pn_subNodes a 0 (get_neighbors g a "both") [a] [a] [] [] x]
    rw [neighbors_ids g a hWF hid ha x]
    rw [List.mem_singleton]
    rfl

def c1_graph : Graph :=
  ⟨[("a", [("id", .vstr "a"), ("type", .vstr "Event"), ("description", .vstr "deadline")]),
    ("b", [("id", .vstr "b"), ("type", .vstr "Emotion"), ("label", .vstr "Anxious")]),
    ("c", [("id", .vstr "c"), ("type", .vstr "Belief"), ("text", .vstr "I always fail")])],
   [("a", "b", [("type", .vstr "TRIGGERED")]), ("b", "c", [("type", .vstr "REINFORCES")])]⟩

/-- C1 witness: on the path graph a → b → c, an ego walk anchored at `a`
with depth 1 contains the direct neighbor `b` but not the distance-2 node
`c`. -/
theorem c1_witness :
    "b" ∈ egoWalkNodes c1_graph ["a"] 1 ∧ "c" ∉ egoWalkNodes c1_graph ["a"] 1 := by
  constructor
  · exact ((c1_ego_walk c1_graph "a" 2 ⟨by decide, by decide, by decide, by decide⟩
      (by decide) (by decide)).2 "b").mpr
      (Or.inr (Or.inl ⟨[("type", Val.vstr "TRIGGERED")], by decide⟩))
  · decide

end ReflectionCoach
